import Mathlib

/-!
Verification of the analytics event bus core of the hydrogen repository
(the module-level `subscribers` / `registers` / `waitForReadyQueue` state
together with `subscribe`, `publish`, `publishEvent`, `register` and the
`ready` capability returned by `register`).

The JavaScript `Map` is modelled as an association list: `set` replaces the
value of an existing key in place (keeping its position) and appends a new
key at the end, matching JS `Map` insertion-order iteration.  The
`registers` plain object is modelled the same way (string keys, insertion
order).  Callbacks are identified by the string `callback.toString()`
used as the inner-map key in `subscribe`, so a callback is represented by
its structural identity string.  A callback invocation is recorded as a
`Delivery`; whether the callback throws is supplied by an external
predicate `throws`, and the `try`/`catch` of `publishEvent` means a
throwing callback is logged but delivery continues, so every subscriber is
always invoked and an invocation never mutates bus state.
-/

abbrev Kind := String
abbrev CbId := String
abbrev Payload := Nat

/-- One callback invocation performed by `publishEvent`: the event kind,
the subscriber identity (the inner map key), the payload passed, and
whether the callback threw (in which case the source catches and logs). -/
structure Delivery where
  kind : Kind
  subscriber : CbId
  payload : Payload
  threw : Bool
deriving Repr, DecidableEq

/-- `Map.get` on an association list: the value at the first occurrence of
the key, if any. -/
def mapGet {α β : Type} [DecidableEq α] : List (α × β) → α → Option β
  | [], _ => none
  | (k', v') :: t, k => if k' = k then some v' else mapGet t k

/-- `Map.set` on an association list: replace the value at the first
occurrence of the key in place, else append the pair at the end. -/
def mapSet {α β : Type} [DecidableEq α] : List (α × β) → α → β → List (α × β)
  | [], k, v => [(k, v)]
  | (k', v') :: t, k, v => if k' = k then (k, v) :: t else (k', v') :: mapSet t k v

/-- The module-level mutable state of the bus: `subscribers` maps an event
kind to the inner map from callback identity to callback (represented by
the identity alone), `registers` maps a participant name to its readiness
flag, and `waitForReadyQueue` holds at most one pending payload per kind. -/
structure BusState where
  subscribers : List (Kind × List CbId)
  registers : List (String × Bool)
  waitForReadyQueue : List (Kind × Payload)
deriving Repr, DecidableEq

/-- `areRegistersReady`: `Object.values(registers).every(Boolean)`. -/
def areRegistersReady (s : BusState) : Bool :=
  s.registers.all (fun p => p.2)

/-- Current subscriber set for a kind: `subscribers.get(event) ?? new Map()`. -/
def subscribersOf (s : BusState) (kind : Kind) : List CbId :=
  (mapGet s.subscribers kind).getD []

/-- Inner `Map.set(callback.toString(), callback)`: since the key
determines the callback in the model, a present key is left in place and a
new one is appended. -/
def innerSet (l : List CbId) (cb : CbId) : List CbId :=
  if cb ∈ l then l else l ++ [cb]

/-- `subscribe(event, callback)`: create the inner map if absent, then set
the callback under its structural identity. -/
def subscribeOp (s : BusState) (kind : Kind) (cb : CbId) : BusState :=
  { s with subscribers := mapSet s.subscribers kind (innerSet (subscribersOf s kind) cb) }

/-- `publishEvent(event, payload)`: invoke every current subscriber of the
kind; the `try`/`catch` makes each invocation independent, so the output
records every subscriber with its `threw` flag. -/
def publishEventOut (throws : CbId → Payload → Bool) (s : BusState)
    (kind : Kind) (payload : Payload) : List Delivery :=
  (subscribersOf s kind).map (fun cb => ⟨kind, cb, payload, throws cb payload⟩)

/-- `publish(event, payload)`: if the registers are not all ready, park the
payload in `waitForReadyQueue` (overwriting any pending payload of the same
kind); otherwise dispatch immediately via `publishEvent`. -/
def publishOp (throws : CbId → Payload → Bool) (s : BusState)
    (kind : Kind) (payload : Payload) : BusState × List Delivery :=
  if areRegistersReady s then
    (s, publishEventOut throws s kind payload)
  else
    ({ s with waitForReadyQueue := mapSet s.waitForReadyQueue kind payload }, [])

/-- `register(key)`: add the name with flag `false` unless already present
(`hasOwnProperty` guard). -/
def registerOp (s : BusState) (name : String) : BusState :=
  if (mapGet s.registers name).isSome then s
  else { s with registers := s.registers ++ [(name, false)] }

/-- The `ready()` closure returned by `register(key)`: set the flag to
`true`; if now all registers are ready and the queue is non-empty, flush
the queue through `publishEvent` in queue order and clear it. -/
def readyOp (throws : CbId → Payload → Bool) (s : BusState) (name : String) :
    BusState × List Delivery :=
  let s' : BusState := { s with registers := mapSet s.registers name true }
  if areRegistersReady s' && decide (0 < s'.waitForReadyQueue.length) then
    ({ s' with waitForReadyQueue := [] },
      s'.waitForReadyQueue.flatMap (fun kp => publishEventOut throws s' kp.1 kp.2))
  else
    (s', [])

/-- The four public operations of the bus. -/
inductive Op where
  | subscribe (kind : Kind) (cb : CbId)
  | publish (kind : Kind) (payload : Payload)
  | register (name : String)
  | ready (name : String)
deriving Repr, DecidableEq

/-- One operation: the new state and the deliveries it performed. -/
def step (throws : CbId → Payload → Bool) (s : BusState) : Op → BusState × List Delivery
  | .subscribe k cb => (subscribeOp s k cb, [])
  | .publish k p => publishOp throws s k p
  | .register n => (registerOp s n, [])
  | .ready n => readyOp throws s n

/-- Run a sequence of operations from a state, accumulating deliveries. -/
def execFrom (throws : CbId → Payload → Bool) (s : BusState) :
    List Op → BusState × List Delivery
  | [] => (s, [])
  | op :: ops =>
    let r := step throws s op
    let r' := execFrom throws r.1 ops
    (r'.1, r.2 ++ r'.2)

/-- The initial module state: all three containers empty. -/
def init : BusState := ⟨[], [], []⟩

/-- Run a sequence of operations from the initial state. -/
def exec (throws : CbId → Payload → Bool) (ops : List Op) : BusState × List Delivery :=
  execFrom throws init ops

/-- State after running `ops` from the initial state. -/
def stateAfter (throws : CbId → Payload → Bool) (ops : List Op) : BusState :=
  (exec throws ops).1

/-- All deliveries performed while running `ops` from the initial state. -/
def outputOf (throws : CbId → Payload → Bool) (ops : List Op) : List Delivery :=
  (exec throws ops).2

/-- `true` iff the gate is closed at `s` and stays closed after every
prefix of `ops` run from `s`. -/
def closedAlong (throws : CbId → Payload → Bool) (s : BusState) : List Op → Bool
  | [] => !areRegistersReady s
  | op :: ops => !areRegistersReady s && closedAlong throws (step throws s op).1 ops

/-- `true` iff no operation in the list publishes kind `K`. -/
def noPublishOf (K : Kind) (ops : List Op) : Bool :=
  ops.all (fun op => match op with
    | .publish k _ => decide (k ≠ K)
    | _ => true)

/-- A `throws` predicate under which no callback ever throws. -/
def noThrow : CbId → Payload → Bool := fun _ _ => false

/-- The intermediate state built by the `ready()` closure right after
setting the participant's flag, before the flush check. -/
def markReady (s : BusState) (n : String) : BusState :=
  { s with registers := mapSet s.registers n true }

/-- A `throws` predicate under which exactly the callback whose identity
is the string "bad" throws, on every payload. -/
def throwsBad : CbId → Payload → Bool := fun cb _ => cb == "bad"

/-- `true` iff the list contains no `register` and no `ready` operation. -/
def noGateOps (ops : List Op) : Bool :=
  ops.all (fun op => match op with
    | .register _ => false
    | .ready _ => false
    | _ => true)

section MapLemmas

variable {α β : Type} [DecidableEq α]

theorem mapGet_mapSet_self (l : List (α × β)) (k : α) (v : β) :
    mapGet (mapSet l k v) k = some v := by
  induction l with
  | nil => simp [mapGet, mapSet]
  | cons hd t ih =>
    obtain ⟨k', v'⟩ := hd
    by_cases h : k' = k
    · simp [mapGet, mapSet, h]
    · simp [mapGet, mapSet, h, ih]

theorem mapGet_mapSet_ne (l : List (α × β)) (k k' : α) (v : β) (h : k ≠ k') :
    mapGet (mapSet l k v) k' = mapGet l k' := by
  induction l with
  | nil => simp [mapGet, mapSet, h]
  | cons hd t ih =>
    obtain ⟨a, b⟩ := hd
    by_cases ha : a = k
    · subst ha
      simp [mapGet, mapSet, h]
    · simp only [mapSet, if_neg ha]
      by_cases ha' : a = k'
      · simp [mapGet, ha']
      · simp [mapGet, ha', ih]

theorem mapSet_eq_of_mapGet (l : List (α × β)) (k : α) (v : β)
    (h : mapGet l k = some v) : mapSet l k v = l := by
  induction l with
  | nil => simp [mapGet] at h
  | cons hd t ih =>
    obtain ⟨a, b⟩ := hd
    by_cases ha : a = k
    · subst ha
      simp [mapGet] at h
      simp [mapSet, h]
    · simp [mapGet, ha] at h
      simp [mapSet, ha, ih h]

theorem mapGet_mem (l : List (α × β)) (k : α) (v : β)
    (h : mapGet l k = some v) : (k, v) ∈ l := by
  induction l with
  | nil => simp [mapGet] at h
  | cons hd t ih =>
    obtain ⟨a, b⟩ := hd
    by_cases ha : a = k
    · subst ha
      simp [mapGet] at h
      simp [h]
    · simp [mapGet, ha] at h
      exact List.mem_cons_of_mem _ (ih h)

theorem keys_mapSet (l : List (α × β)) (k : α) (v : β) :
    (mapSet l k v).map Prod.fst =
      if k ∈ l.map Prod.fst then l.map Prod.fst else l.map Prod.fst ++ [k] := by
  induction l with
  | nil => simp [mapSet]
  | cons hd t ih =>
    obtain ⟨a, b⟩ := hd
    by_cases ha : a = k
    · subst ha
      simp [mapSet]
    · have hne : ¬ (k = a) := fun h => ha h.symm
      by_cases hk : k ∈ t.map Prod.fst
      · simp [mapSet, ha, ih, hk, hne]
      · simp [mapSet, ha, ih, hk, hne]

theorem mapGet_append_of_isSome (l l' : List (α × β)) (k : α) (v : β)
    (h : mapGet l k = some v) : mapGet (l ++ l') k = some v := by
  induction l with
  | nil => simp [mapGet] at h
  | cons hd t ih =>
    obtain ⟨a, b⟩ := hd
    by_cases ha : a = k
    · subst ha
      simp [mapGet] at h
      simp [mapGet, h]
    · simp [mapGet, ha] at h ⊢
      exact ih h

theorem mapGet_append_of_none (l l' : List (α × β)) (k : α)
    (h : mapGet l k = none) : mapGet (l ++ l') k = mapGet l' k := by
  induction l with
  | nil => simp
  | cons hd t ih =>
    obtain ⟨a, b⟩ := hd
    by_cases ha : a = k
    · subst ha
      simp [mapGet] at h
    · simp [mapGet, ha] at h ⊢
      exact ih h

theorem mapGet_of_mem_nodup (l : List (α × β)) (k : α) (v : β)
    (hnd : (l.map Prod.fst).Nodup) (hm : (k, v) ∈ l) : mapGet l k = some v := by
  induction l with
  | nil => simp at hm
  | cons hd t ih =>
    obtain ⟨a, b⟩ := hd
    simp only [List.map_cons, List.nodup_cons] at hnd
    rcases List.mem_cons.mp hm with h | h
    · injection h with h1 h2
      subst h1
      subst h2
      simp [mapGet]
    · have hak : a ≠ k := by
        intro hh
        subst hh
        exact hnd.1 (List.mem_map.mpr ⟨(a, v), h, rfl⟩)
      simp [mapGet, hak]
      exact ih hnd.2 h

end MapLemmas

section ExecLemmas

theorem mapGet_eq_none_iff {α β : Type} [DecidableEq α] (l : List (α × β)) (k : α) :
    mapGet l k = none ↔ k ∉ l.map Prod.fst := by
  induction l with
  | nil => simp [mapGet]
  | cons hd t ih =>
    obtain ⟨a, b⟩ := hd
    by_cases ha : a = k
    · subst ha
      simp [mapGet]
    · simp only [mapGet, if_neg ha, List.map_cons, List.mem_cons]
      rw [ih]
      constructor
      · intro h hk
        rcases hk with hk | hk
        · exact ha hk.symm
        · exact h hk
      · intro h hk
        exact h (Or.inr hk)

theorem mapGet_append_single_ne {α β : Type} [DecidableEq α] (l : List (α × β))
    (k m : α) (x : β) (h : k ≠ m) : mapGet (l ++ [(m, x)]) k = mapGet l k := by
  cases hg : mapGet l k with
  | some v => exact mapGet_append_of_isSome l _ k v hg
  | none =>
    rw [mapGet_append_of_none l _ k hg]
    simp [mapGet, (Ne.symm h : m ≠ k)]

theorem execFrom_append (throws : CbId → Payload → Bool) (s : BusState) (a b : List Op) :
    execFrom throws s (a ++ b) =
      ((execFrom throws (execFrom throws s a).1 b).1,
        (execFrom throws s a).2 ++ (execFrom throws (execFrom throws s a).1 b).2) := by
  induction a generalizing s with
  | nil => simp [execFrom]
  | cons op t ih => simp [execFrom, ih]

theorem publishOp_registers (throws : CbId → Payload → Bool) (s : BusState)
    (k : Kind) (p : Payload) : (publishOp throws s k p).1.registers = s.registers := by
  unfold publishOp
  split <;> rfl

theorem readyOp_registers (throws : CbId → Payload → Bool) (s : BusState) (n : String) :
    (readyOp throws s n).1.registers = mapSet s.registers n true := by
  unfold readyOp
  dsimp only
  split <;> rfl

/-- Full characterization of a participant's flag after a run: `true` if a
`ready` occurred; else created `false` by a `register` when it was absent;
else untouched. -/
theorem registers_after (throws : CbId → Payload → Bool) (ops : List Op)
    (s : BusState) (n : String) :
    mapGet (execFrom throws s ops).1.registers n =
      if Op.ready n ∈ ops then some true
      else if Op.register n ∈ ops then some ((mapGet s.registers n).getD false)
      else mapGet s.registers n := by
  induction ops generalizing s with
  | nil => simp [execFrom]
  | cons op t ih =>
    have hstep : (execFrom throws s (op :: t)).1 = (execFrom throws (step throws s op).1 t).1 := by
      simp [execFrom]
    rw [hstep, ih]
    cases op with
    | subscribe k cb =>
      simp [step, subscribeOp, List.mem_cons]
    | publish k p =>
      simp only [step, publishOp_registers, List.mem_cons]
      simp
    | register m =>
      simp only [step, registerOp]
      by_cases hp : (mapGet s.registers m).isSome
      · rw [if_pos hp]
        by_cases hnm : n = m
        · subst hnm
          obtain ⟨v, hv⟩ := Option.isSome_iff_exists.mp hp
          simp [List.mem_cons, hv]
        · have h1 : (Op.register n = Op.register m) = False := by
            simp [hnm]
          simp [List.mem_cons, h1]
      · rw [if_neg hp]
        have hnone : mapGet s.registers m = none := Option.not_isSome_iff_eq_none.mp hp
        by_cases hnm : n = m
        · subst hnm
          have hget : mapGet (s.registers ++ [(n, false)]) n = some false := by
            rw [mapGet_append_of_none _ _ _ hnone]
            simp [mapGet]
          simp only [hget, hnone, List.mem_cons, true_or, or_true, if_true]
          by_cases hr : Op.ready n ∈ t
          · simp [hr]
          · simp [hr]
        · have hget : mapGet (s.registers ++ [(m, false)]) n = mapGet s.registers n :=
            mapGet_append_single_ne _ _ _ _ hnm
          have h1 : (Op.register n = Op.register m) = False := by
            simp [hnm]
          simp [List.mem_cons, h1, hget]
    | ready m =>
      simp only [step, readyOp_registers]
      by_cases hnm : n = m
      · subst hnm
        have hget : mapGet (mapSet s.registers n true) n = some true :=
          mapGet_mapSet_self _ _ _
        simp only [hget, List.mem_cons, true_or, if_true]
        by_cases hr : Op.ready n ∈ t
        · simp [hr]
        · by_cases hg : Op.register n ∈ t
          · simp [hr, hg]
          · simp [hr, hg]
      · have hget : mapGet (mapSet s.registers m true) n = mapGet s.registers n :=
          mapGet_mapSet_ne _ _ _ _ (fun h => hnm h.symm)
        have h1 : (Op.ready n = Op.ready m) = False := by
          simp [hnm]
        simp [List.mem_cons, h1, hget]

end ExecLemmas

/-- Well-formedness: all three maps have distinct keys (as JS `Map` /
object keys are) and every inner subscriber list has distinct identities. -/
def WF (s : BusState) : Prop :=
  (s.subscribers.map Prod.fst).Nodup ∧
  (∀ p ∈ s.subscribers, (p.2 : List CbId).Nodup) ∧
  (s.registers.map Prod.fst).Nodup ∧
  (s.waitForReadyQueue.map Prod.fst).Nodup

theorem nodup_keys_mapSet {α β : Type} [DecidableEq α] (l : List (α × β)) (k : α) (v : β)
    (h : (l.map Prod.fst).Nodup) : ((mapSet l k v).map Prod.fst).Nodup := by
  rw [keys_mapSet]
  split
  · exact h
  · rename_i hk
    have hk' : k ∉ l.map Prod.fst := by simpa using hk
    simp [List.nodup_append, h, hk']

theorem mem_mapSet {α β : Type} [DecidableEq α] (l : List (α × β)) (k : α) (v : β)
    (p : α × β) (h : p ∈ mapSet l k v) : p = (k, v) ∨ p ∈ l := by
  induction l with
  | nil =>
    simp [mapSet] at h
    exact Or.inl h
  | cons hd t ih =>
    obtain ⟨a, b⟩ := hd
    by_cases ha : a = k
    · subst ha
      simp [mapSet] at h
      rcases h with h | h
      · exact Or.inl h
      · exact Or.inr (List.mem_cons_of_mem _ h)
    · simp only [mapSet, if_neg ha, List.mem_cons] at h
      rcases h with h | h
      · exact Or.inr (by simp [h])
      · rcases ih h with h' | h'
        · exact Or.inl h'
        · exact Or.inr (List.mem_cons_of_mem _ h')

theorem innerSet_nodup (l : List CbId) (cb : CbId) (h : l.Nodup) :
    (innerSet l cb).Nodup := by
  unfold innerSet
  split
  · exact h
  · rename_i hm
    simp [List.nodup_append, h, hm]

theorem wf_step (throws : CbId → Payload → Bool) (s : BusState) (op : Op)
    (h : WF s) : WF (step throws s op).1 := by
  obtain ⟨h1, h2, h3, h4⟩ := h
  cases op with
  | subscribe k cb =>
    refine ⟨nodup_keys_mapSet _ _ _ h1, ?_, h3, h4⟩
    intro p hp
    rcases mem_mapSet _ _ _ _ hp with h' | h'
    · subst h'
      refine innerSet_nodup _ _ ?_
      unfold subscribersOf
      cases hg : mapGet s.subscribers k with
      | none => simp
      | some inner =>
        simpa using h2 (k, inner) (mapGet_mem _ _ _ hg)
    · exact h2 p h'
  | publish k p =>
    show WF (publishOp throws s k p).1
    unfold publishOp
    split
    · exact ⟨h1, h2, h3, h4⟩
    · exact ⟨h1, h2, h3, nodup_keys_mapSet _ _ _ h4⟩
  | register n =>
    show WF (registerOp s n)
    unfold registerOp
    split
    · exact ⟨h1, h2, h3, h4⟩
    · rename_i hns
      have hnone : mapGet s.registers n = none := Option.not_isSome_iff_eq_none.mp hns
      refine ⟨h1, h2, ?_, h4⟩
      simp only [List.map_append, List.nodup_append]
      exact ⟨h3, by simp, by
        simpa using (mapGet_eq_none_iff s.registers n).mp hnone⟩
  | ready n =>
    show WF (readyOp throws s n).1
    unfold readyOp
    dsimp only
    split
    · exact ⟨h1, h2, nodup_keys_mapSet _ _ _ h3, by simp⟩
    · exact ⟨h1, h2, nodup_keys_mapSet _ _ _ h3, h4⟩

theorem wf_execFrom (throws : CbId → Payload → Bool) (ops : List Op) (s : BusState)
    (h : WF s) : WF (execFrom throws s ops).1 := by
  induction ops generalizing s with
  | nil => simpa [execFrom] using h
  | cons op t ih =>
    have : (execFrom throws s (op :: t)).1 = (execFrom throws (step throws s op).1 t).1 := by
      simp [execFrom]
    rw [this]
    exact ih _ (wf_step throws s op h)

theorem wf_init : WF init := by
  refine ⟨?_, ?_, ?_, ?_⟩ <;> simp [init]

theorem wf_stateAfter (throws : CbId → Payload → Bool) (ops : List Op) :
    WF (stateAfter throws ops) :=
  wf_execFrom throws ops init wf_init

theorem areRegistersReady_iff (s : BusState)
    (hnd : (s.registers.map Prod.fst).Nodup) :
    areRegistersReady s = true ↔ ∀ n b, mapGet s.registers n = some b → b = true := by
  unfold areRegistersReady
  rw [List.all_eq_true]
  constructor
  · intro h n b hget
    exact h (n, b) (mapGet_mem _ _ _ hget)
  · intro h p hp
    exact h p.1 p.2 (mapGet_of_mem_nodup _ _ _ hnd hp)

/-- C1: for every sequence of register and ready calls, the gate is open
iff every registered participant name has had ready() called at least
once, and the gate is vacuously open when no name was ever registered. -/
theorem c1_gate_open_iff_all_ready (throws : CbId → Payload → Bool) (ops : List Op) :
    areRegistersReady (stateAfter throws ops) = true ↔
      ∀ n, Op.register n ∈ ops → Op.ready n ∈ ops := by
  have hnd : ((stateAfter throws ops).registers.map Prod.fst).Nodup :=
    (wf_stateAfter throws ops).2.2.1
  rw [areRegistersReady_iff _ hnd]
  have hchar : ∀ n, mapGet (stateAfter throws ops).registers n =
      if Op.ready n ∈ ops then some true
      else if Op.register n ∈ ops then some false
      else none := by
    intro n
    have := registers_after throws ops init n
    simpa [stateAfter, exec, init, mapGet] using this
  constructor
  · intro h n hreg
    by_contra hrdy
    have hg := hchar n
    rw [if_neg hrdy, if_pos hreg] at hg
    exact Bool.false_ne_true (h n false hg)
  · intro h n b hget
    rw [hchar n] at hget
    by_cases hrdy : Op.ready n ∈ ops
    · rw [if_pos hrdy] at hget
      exact (Option.some.injEq .. ▸ hget).symm ▸ rfl
    · by_cases hreg : Op.register n ∈ ops
      · exact absurd (h n hreg) hrdy
      · rw [if_neg hrdy, if_neg hreg] at hget
        exact absurd hget (by simp)

section FlushLemmas

theorem areRegistersReady_eq_of_registers (s t : BusState) (h : s.registers = t.registers) :
    areRegistersReady s = areRegistersReady t := by
  unfold areRegistersReady
  rw [h]

theorem ready_flush (throws : CbId → Payload → Bool) (s : BusState) (n : String)
    (hopen : areRegistersReady (markReady s n) = true) :
    readyOp throws s n =
      ({ markReady s n with waitForReadyQueue := [] },
        s.waitForReadyQueue.flatMap fun kp =>
          publishEventOut throws (markReady s n) kp.1 kp.2) := by
  obtain ⟨subs, regs, q⟩ := s
  unfold readyOp markReady at *
  dsimp only at *
  cases q with
  | nil => simp [hopen]
  | cons kp t => simp [hopen]

theorem readyOp_not_open (throws : CbId → Payload → Bool) (s : BusState) (n : String)
    (h : areRegistersReady (markReady s n) = false) :
    readyOp throws s n = (markReady s n, []) := by
  unfold readyOp markReady at *
  dsimp only at *
  simp [h]

theorem step_out_nil_of_closed (throws : CbId → Payload → Bool) (s : BusState) (op : Op)
    (h : areRegistersReady (step throws s op).1 = false) : (step throws s op).2 = [] := by
  cases op with
  | subscribe k cb => rfl
  | register n => rfl
  | publish k p =>
    have hreg : areRegistersReady s = false := by
      rw [areRegistersReady_eq_of_registers s (step throws s (.publish k p)).1
        (publishOp_registers throws s k p).symm]
      exact h
    show (publishOp throws s k p).2 = []
    unfold publishOp
    rw [if_neg (by simp [hreg])]
  | ready n =>
    have hm : areRegistersReady (markReady s n) = false := by
      rw [areRegistersReady_eq_of_registers (markReady s n) (step throws s (.ready n)).1
        (readyOp_registers throws s n).symm]
      exact h
    show (readyOp throws s n).2 = []
    rw [readyOp_not_open throws s n hm]

theorem closedAlong_head (throws : CbId → Payload → Bool) (s : BusState) (ops : List Op)
    (h : closedAlong throws s ops = true) : areRegistersReady s = false := by
  cases ops with
  | nil => simpa [closedAlong] using h
  | cons op t =>
    simp [closedAlong] at h
    exact h.1

theorem execFrom_fst_cons (throws : CbId → Payload → Bool) (s : BusState) (op : Op)
    (t : List Op) :
    (execFrom throws s (op :: t)).1 = (execFrom throws (step throws s op).1 t).1 := by
  simp [execFrom]

theorem execFrom_snd_cons (throws : CbId → Payload → Bool) (s : BusState) (op : Op)
    (t : List Op) :
    (execFrom throws s (op :: t)).2 =
      (step throws s op).2 ++ (execFrom throws (step throws s op).1 t).2 := by
  simp [execFrom]

/-- While the gate stays closed, a run performs no deliveries at all. -/
theorem closedAlong_silent (throws : CbId → Payload → Bool) (ops : List Op) (s : BusState)
    (h : closedAlong throws s ops = true) : (execFrom throws s ops).2 = [] := by
  induction ops generalizing s with
  | nil => rfl
  | cons op t ih =>
    simp only [closedAlong, Bool.and_eq_true] at h
    rw [execFrom_snd_cons]
    rw [ih _ h.2, step_out_nil_of_closed throws s op (closedAlong_head throws _ t h.2)]
    rfl

theorem closedAlong_append (throws : CbId → Payload → Bool) (a b : List Op) (s : BusState)
    (h : closedAlong throws s (a ++ b) = true) :
    closedAlong throws s a = true ∧ closedAlong throws (execFrom throws s a).1 b = true := by
  induction a generalizing s with
  | nil =>
    refine ⟨?_, h⟩
    simp [closedAlong, closedAlong_head throws s b h]
  | cons op t ih =>
    simp only [List.cons_append, closedAlong, Bool.and_eq_true] at h
    obtain ⟨hs, h'⟩ := ih (step throws s op).1 h.2
    refine ⟨?_, ?_⟩
    · simp [closedAlong, h.1, hs]
    · rw [execFrom_fst_cons]
      exact h'

/-- A pending payload for kind `K` survives any closed run that never
publishes `K` again. -/
theorem queue_get_preserved (throws : CbId → Payload → Bool) (ops : List Op) (s : BusState)
    (K : Kind) (P : Payload)
    (hq : mapGet s.waitForReadyQueue K = some P)
    (hc : closedAlong throws s ops = true)
    (hn : noPublishOf K ops = true) :
    mapGet (execFrom throws s ops).1.waitForReadyQueue K = some P := by
  induction ops generalizing s with
  | nil => exact hq
  | cons op t ih =>
    simp only [closedAlong, Bool.and_eq_true] at hc
    have hs : areRegistersReady s = false := by simpa using hc.1
    have hn' : noPublishOf K t = true := by
      unfold noPublishOf at hn ⊢
      simp only [List.all_cons, Bool.and_eq_true] at hn
      exact hn.2
    rw [execFrom_fst_cons]
    apply ih _ _ hc.2 hn'
    cases op with
    | subscribe k cb => exact hq
    | register m =>
      show mapGet (registerOp s m).waitForReadyQueue K = some P
      unfold registerOp
      split
      · exact hq
      · exact hq
    | publish k p =>
      have hkK : k ≠ K := by
        unfold noPublishOf at hn
        simp only [List.all_cons, Bool.and_eq_true] at hn
        simpa using hn.1
      show mapGet (publishOp throws s k p).1.waitForReadyQueue K = some P
      unfold publishOp
      rw [if_neg (by simp [hs])]
      show mapGet (mapSet s.waitForReadyQueue k p) K = some P
      rw [mapGet_mapSet_ne _ _ _ _ hkK]
      exact hq
    | ready m =>
      have hclosed : areRegistersReady (step throws s (.ready m)).1 = false :=
        closedAlong_head throws _ t hc.2
      have hm : areRegistersReady (markReady s m) = false := by
        rw [areRegistersReady_eq_of_registers (markReady s m) (step throws s (.ready m)).1
          (readyOp_registers throws s m).symm]
        exact hclosed
      show mapGet (readyOp throws s m).1.waitForReadyQueue K = some P
      rw [readyOp_not_open throws s m hm]
      exact hq

theorem publishEventOut_kinds (throws : CbId → Payload → Bool) (s : BusState)
    (k : Kind) (p : Payload) : ∀ d ∈ publishEventOut throws s k p, d.kind = k := by
  intro d hd
  unfold publishEventOut at hd
  obtain ⟨cb, _, rfl⟩ := List.mem_map.mp hd
  rfl

theorem filter_publishEventOut_self (throws : CbId → Payload → Bool) (s : BusState)
    (K : Kind) (p : Payload) :
    (publishEventOut throws s K p).filter (fun d => d.kind == K) =
      publishEventOut throws s K p := by
  apply List.filter_eq_self.mpr
  intro d hd
  rw [publishEventOut_kinds throws s K p d hd]
  simp

theorem filter_publishEventOut_ne (throws : CbId → Payload → Bool) (s : BusState)
    (k : Kind) (p : Payload) (K : Kind) (h : k ≠ K) :
    (publishEventOut throws s k p).filter (fun d => d.kind == K) = [] := by
  apply List.filter_eq_nil.mpr
  intro d hd
  rw [publishEventOut_kinds throws s k p d hd]
  simp [h]

/-- Restricting a flush to kind `K` yields exactly the dispatch of the one
pending `(K, P)` entry, when queue keys are distinct. -/
theorem filter_flatMap_queue (throws : CbId → Payload → Bool) (s' : BusState)
    (q : List (Kind × Payload)) (K : Kind) (P : Payload)
    (hnd : (q.map Prod.fst).Nodup) (hm : (K, P) ∈ q) :
    (q.flatMap fun kp => publishEventOut throws s' kp.1 kp.2).filter
        (fun d => d.kind == K) =
      publishEventOut throws s' K P := by
  induction q with
  | nil => simp at hm
  | cons kp t ih =>
    obtain ⟨k, p⟩ := kp
    simp only [List.flatMap_cons, List.filter_append]
    simp only [List.map_cons, List.nodup_cons] at hnd
    rcases List.mem_cons.mp hm with h | h
    · injection h with hk hp
      subst hk
      subst hp
      rw [filter_publishEventOut_self]
      have htail : (t.flatMap fun kp => publishEventOut throws s' kp.1 kp.2).filter
          (fun d => d.kind == K) = [] := by
        apply List.filter_eq_nil.mpr
        intro d hd
        obtain ⟨kp', hkp', hd'⟩ := List.mem_flatMap.mp hd
        have hdk : d.kind = kp'.1 := publishEventOut_kinds throws s' kp'.1 kp'.2 d hd'
        have hne : kp'.1 ≠ K := fun he => hnd.1 (List.mem_map.mpr ⟨kp', hkp', he⟩)
        simp [hdk, hne]
      rw [htail, List.append_nil]
    · have hkK : k ≠ K := by
        intro he
        subst he
        exact hnd.1 (List.mem_map.mpr ⟨(k, P), h, rfl⟩)
      rw [filter_publishEventOut_ne throws s' k p K hkK, List.nil_append, ih hnd.2 h]

theorem subscribersOf_nodup (s : BusState) (h : WF s) (k : Kind) :
    (subscribersOf s k).Nodup := by
  unfold subscribersOf
  cases hg : mapGet s.subscribers k with
  | none => simp
  | some inner => simpa using h.2.1 (k, inner) (mapGet_mem _ _ _ hg)

theorem countP_subscriber_map (throws : CbId → Payload → Bool) (subs : List CbId)
    (cb : CbId) (K : Kind) (P : Payload) (hnd : subs.Nodup) (hm : cb ∈ subs) :
    ((subs.map fun c => (⟨K, c, P, throws c P⟩ : Delivery)).countP
      (fun d => d.subscriber == cb)) = 1 := by
  rw [List.countP_map]
  have he : ((fun d => d.subscriber == cb) ∘ fun c => (⟨K, c, P, throws c P⟩ : Delivery)) =
      (fun c => c == cb) := rfl
  rw [he]
  have hc : (subs.countP fun c => c == cb) = subs.count cb := rfl
  rw [hc]
  exact List.count_eq_one_of_mem hnd hm

end FlushLemmas

theorem stateAfter_append (throws : CbId → Payload → Bool) (a b : List Op) :
    stateAfter throws (a ++ b) = (execFrom throws (stateAfter throws a) b).1 := by
  unfold stateAfter exec
  rw [execFrom_append]

/-- Core of the deferred-delivery claims: if kind `K` has pending payload
`P` and a `ready` call opens the gate, the flush's deliveries of kind `K`
are exactly one invocation per current subscriber of `K`, with payload `P`. -/
theorem flush_filter_eq (throws : CbId → Payload → Bool) (ops : List Op) (K : Kind)
    (P : Payload) (n : String)
    (hq : mapGet (stateAfter throws ops).waitForReadyQueue K = some P)
    (h4 : areRegistersReady (markReady (stateAfter throws ops) n) = true) :
    ((step throws (stateAfter throws ops) (Op.ready n)).2.filter (fun d => d.kind == K) =
      (subscribersOf (stateAfter throws ops) K).map
        (fun cb => ⟨K, cb, P, throws cb P⟩)) ∧
    ∀ cb ∈ subscribersOf (stateAfter throws ops) K,
      ((step throws (stateAfter throws ops) (Op.ready n)).2.filter
          (fun d => d.kind == K)).countP (fun d => d.subscriber == cb) = 1 := by
  have hwf : WF (stateAfter throws ops) := wf_stateAfter throws ops
  have hout : (step throws (stateAfter throws ops) (Op.ready n)).2 =
      (stateAfter throws ops).waitForReadyQueue.flatMap
        (fun kp => publishEventOut throws (markReady (stateAfter throws ops) n) kp.1 kp.2) := by
    show (readyOp throws (stateAfter throws ops) n).2 = _
    rw [ready_flush throws (stateAfter throws ops) n h4]
  have hsubs : publishEventOut throws (markReady (stateAfter throws ops) n) K P =
      (subscribersOf (stateAfter throws ops) K).map
        (fun cb => ⟨K, cb, P, throws cb P⟩) := rfl
  have hfilter : (step throws (stateAfter throws ops) (Op.ready n)).2.filter
      (fun d => d.kind == K) =
      (subscribersOf (stateAfter throws ops) K).map
        (fun cb => ⟨K, cb, P, throws cb P⟩) := by
    rw [hout, filter_flatMap_queue throws _ _ K P hwf.2.2.2 (mapGet_mem _ _ _ hq), hsubs]
  refine ⟨hfilter, ?_⟩
  intro cb hcb
  rw [hfilter]
  exact countP_subscriber_map throws _ cb K P (subscribersOf_nodup _ hwf K) hcb

/-- C2: a payload published for kind K while the gate is closed, with no
later publish of K before the gate opens, is delivered at flush time to
every subscriber of K present at flush time (including those subscribed
after the publish), exactly once each. -/
theorem c2_deferred_publish_delivered_once (throws : CbId → Payload → Bool)
    (ops₁ ops₂ : List Op) (K : Kind) (P : Payload) (n : String)
    (h2 : closedAlong throws (stateAfter throws (ops₁ ++ [Op.publish K P])) ops₂ = true)
    (h3 : noPublishOf K ops₂ = true)
    (h4 : areRegistersReady
        (markReady (stateAfter throws (ops₁ ++ Op.publish K P :: ops₂)) n) = true) :
    ((step throws (stateAfter throws (ops₁ ++ Op.publish K P :: ops₂)) (Op.ready n)).2.filter
        (fun d => d.kind == K) =
      (subscribersOf (stateAfter throws (ops₁ ++ Op.publish K P :: ops₂)) K).map
        (fun cb => ⟨K, cb, P, throws cb P⟩)) ∧
    ∀ cb ∈ subscribersOf (stateAfter throws (ops₁ ++ Op.publish K P :: ops₂)) K,
      ((step throws (stateAfter throws (ops₁ ++ Op.publish K P :: ops₂)) (Op.ready n)).2.filter
          (fun d => d.kind == K)).countP (fun d => d.subscriber == cb) = 1 := by
  have hsplit : ops₁ ++ Op.publish K P :: ops₂ = (ops₁ ++ [Op.publish K P]) ++ ops₂ := by
    simp
  have hclosed₂ : areRegistersReady (stateAfter throws (ops₁ ++ [Op.publish K P])) = false :=
    closedAlong_head throws _ ops₂ h2
  have hs2 : stateAfter throws (ops₁ ++ [Op.publish K P]) =
      (step throws (stateAfter throws ops₁) (Op.publish K P)).1 := by
    rw [stateAfter_append]
    simp [execFrom]
  have hclosed₁ : areRegistersReady (stateAfter throws ops₁) = false := by
    rw [areRegistersReady_eq_of_registers (stateAfter throws ops₁)
      (step throws (stateAfter throws ops₁) (Op.publish K P)).1
      (publishOp_registers throws _ K P).symm, ← hs2]
    exact hclosed₂
  have hq₂ : mapGet (stateAfter throws (ops₁ ++ [Op.publish K P])).waitForReadyQueue K
      = some P := by
    rw [hs2]
    show mapGet (publishOp throws (stateAfter throws ops₁) K P).1.waitForReadyQueue K = some P
    unfold publishOp
    rw [if_neg (by simp [hclosed₁])]
    exact mapGet_mapSet_self _ _ _
  have hq₃ : mapGet (stateAfter throws
      (ops₁ ++ Op.publish K P :: ops₂)).waitForReadyQueue K = some P := by
    rw [hsplit, stateAfter_append]
    exact queue_get_preserved throws ops₂ _ K P hq₂ h2 h3
  exact flush_filter_eq throws _ K P n hq₃ h4

/-- C3: publishing K twice while closed (P1 then P2, P1 ≠ P2) and then
opening delivers only P2: the flush's K-deliveries all carry P2, no
delivery of P1 ever happens (neither during the closed stretch nor in the
flush), so no subscriber receives both payloads. -/
theorem c3_last_wins_only_p2 (throws : CbId → Payload → Bool)
    (ops₁ ops₂ ops₃ : List Op) (K : Kind) (P1 P2 : Payload) (n : String)
    (h2 : closedAlong throws (stateAfter throws (ops₁ ++ [Op.publish K P1]))
        (ops₂ ++ Op.publish K P2 :: ops₃) = true)
    (h3 : noPublishOf K ops₃ = true)
    (h4 : areRegistersReady (markReady (stateAfter throws
        (ops₁ ++ Op.publish K P1 :: (ops₂ ++ Op.publish K P2 :: ops₃))) n) = true)
    (hne : P1 ≠ P2) :
    ((step throws (stateAfter throws
        (ops₁ ++ Op.publish K P1 :: (ops₂ ++ Op.publish K P2 :: ops₃))) (Op.ready n)).2.filter
        (fun d => d.kind == K) =
      (subscribersOf (stateAfter throws
        (ops₁ ++ Op.publish K P1 :: (ops₂ ++ Op.publish K P2 :: ops₃))) K).map
        (fun cb => ⟨K, cb, P2, throws cb P2⟩)) ∧
    ((step throws (stateAfter throws
        (ops₁ ++ Op.publish K P1 :: (ops₂ ++ Op.publish K P2 :: ops₃))) (Op.ready n)).2.countP
        (fun d => d.kind == K && d.payload == P1) = 0) ∧
    (execFrom throws (stateAfter throws (ops₁ ++ [Op.publish K P1]))
        (ops₂ ++ Op.publish K P2 :: ops₃)).2 = [] := by
  have hF : ops₁ ++ Op.publish K P1 :: (ops₂ ++ Op.publish K P2 :: ops₃) =
      (((ops₁ ++ [Op.publish K P1]) ++ ops₂) ++ [Op.publish K P2]) ++ ops₃ := by
    simp
  rw [hF] at h4 ⊢
  -- split the closed stretch at the second publish
  obtain ⟨hc2a, hc2b⟩ := closedAlong_append throws ops₂ (Op.publish K P2 :: ops₃) _ h2
  have hsA : stateAfter throws ((ops₁ ++ [Op.publish K P1]) ++ ops₂) =
      (execFrom throws (stateAfter throws (ops₁ ++ [Op.publish K P1])) ops₂).1 :=
    stateAfter_append throws _ _
  rw [← hsA] at hc2b
  have hclosedA : areRegistersReady
      (stateAfter throws ((ops₁ ++ [Op.publish K P1]) ++ ops₂)) = false :=
    closedAlong_head throws _ _ hc2b
  simp only [closedAlong, Bool.and_eq_true] at hc2b
  have hsB : stateAfter throws (((ops₁ ++ [Op.publish K P1]) ++ ops₂) ++ [Op.publish K P2]) =
      (step throws (stateAfter throws ((ops₁ ++ [Op.publish K P1]) ++ ops₂))
        (Op.publish K P2)).1 := by
    rw [stateAfter_append]
    simp [execFrom]
  have hqB : mapGet (stateAfter throws
      (((ops₁ ++ [Op.publish K P1]) ++ ops₂) ++ [Op.publish K P2])).waitForReadyQueue K
      = some P2 := by
    rw [hsB]
    show mapGet (publishOp throws _ K P2).1.waitForReadyQueue K = some P2
    unfold publishOp
    rw [if_neg (by rw [hclosedA]; exact Bool.false_ne_true)]
    exact mapGet_mapSet_self _ _ _
  have hc3 : closedAlong throws (stateAfter throws
      (((ops₁ ++ [Op.publish K P1]) ++ ops₂) ++ [Op.publish K P2])) ops₃ = true := by
    rw [hsB]
    exact hc2b.2
  have hqF : mapGet (stateAfter throws
      ((((ops₁ ++ [Op.publish K P1]) ++ ops₂) ++ [Op.publish K P2]) ++ ops₃)).waitForReadyQueue K
      = some P2 := by
    rw [stateAfter_append]
    exact queue_get_preserved throws ops₃ _ K P2 hqB hc3 h3
  obtain ⟨hfilter, _⟩ := flush_filter_eq throws _ K P2 n hqF h4
  refine ⟨hfilter, ?_, closedAlong_silent throws _ _ h2⟩
  apply List.countP_eq_zero.mpr
  intro d hd hp
  simp only [Bool.and_eq_true, beq_iff_eq] at hp
  have hdf : d ∈ (step throws (stateAfter throws
      ((((ops₁ ++ [Op.publish K P1]) ++ ops₂) ++ [Op.publish K P2]) ++ ops₃))
      (Op.ready n)).2.filter (fun d => d.kind == K) :=
    List.mem_filter.mpr ⟨hd, by simp [hp.1]⟩
  rw [hfilter] at hdf
  obtain ⟨cb, _, rfl⟩ := List.mem_map.mp hdf
  exact hne (hp.2.symm)

/-- Witness for C2 at a concrete run: participant "a" registered, "c1"
subscribed, publish parked, "c2" subscribed late, then ready flushes to
both subscribers exactly once. -/
theorem c2_witness :
    closedAlong noThrow (stateAfter noThrow
        ([Op.register "a", Op.subscribe "k" "c1"] ++ [Op.publish "k" 5]))
      [Op.subscribe "k" "c2"] = true ∧
    noPublishOf "k" [Op.subscribe "k" "c2"] = true ∧
    areRegistersReady (markReady (stateAfter noThrow
        ([Op.register "a", Op.subscribe "k" "c1"] ++ Op.publish "k" 5 ::
          [Op.subscribe "k" "c2"])) "a") = true ∧
    (((step noThrow (stateAfter noThrow
        ([Op.register "a", Op.subscribe "k" "c1"] ++ Op.publish "k" 5 ::
          [Op.subscribe "k" "c2"])) (Op.ready "a")).2.filter
        (fun d => d.kind == "k") =
      (subscribersOf (stateAfter noThrow
        ([Op.register "a", Op.subscribe "k" "c1"] ++ Op.publish "k" 5 ::
          [Op.subscribe "k" "c2"])) "k").map
        (fun cb => ⟨"k", cb, 5, noThrow cb 5⟩)) ∧
    ∀ cb ∈ subscribersOf (stateAfter noThrow
        ([Op.register "a", Op.subscribe "k" "c1"] ++ Op.publish "k" 5 ::
          [Op.subscribe "k" "c2"])) "k",
      ((step noThrow (stateAfter noThrow
        ([Op.register "a", Op.subscribe "k" "c1"] ++ Op.publish "k" 5 ::
          [Op.subscribe "k" "c2"])) (Op.ready "a")).2.filter
          (fun d => d.kind == "k")).countP (fun d => d.subscriber == cb) = 1) :=
  ⟨by decide, by decide, by decide,
    c2_deferred_publish_delivered_once noThrow
      [Op.register "a", Op.subscribe "k" "c1"] [Op.subscribe "k" "c2"] "k" 5 "a"
      (by decide) (by decide) (by decide)⟩

/-- Witness for C3 at a concrete run: publish 1 then 2 for kind "k" while
closed, then ready; only payload 2 reaches the subscriber. -/
theorem c3_witness :
    closedAlong noThrow (stateAfter noThrow
        ([Op.register "a", Op.subscribe "k" "c"] ++ [Op.publish "k" 1]))
      ([] ++ Op.publish "k" 2 :: []) = true ∧
    noPublishOf "k" ([] : List Op) = true ∧
    areRegistersReady (markReady (stateAfter noThrow
        ([Op.register "a", Op.subscribe "k" "c"] ++ Op.publish "k" 1 ::
          ([] ++ Op.publish "k" 2 :: []))) "a") = true ∧
    (1 : Payload) ≠ 2 ∧
    (((step noThrow (stateAfter noThrow
        ([Op.register "a", Op.subscribe "k" "c"] ++ Op.publish "k" 1 ::
          ([] ++ Op.publish "k" 2 :: []))) (Op.ready "a")).2.filter
        (fun d => d.kind == "k") =
      (subscribersOf (stateAfter noThrow
        ([Op.register "a", Op.subscribe "k" "c"] ++ Op.publish "k" 1 ::
          ([] ++ Op.publish "k" 2 :: []))) "k").map
        (fun cb => ⟨"k", cb, 2, noThrow cb 2⟩)) ∧
    ((step noThrow (stateAfter noThrow
        ([Op.register "a", Op.subscribe "k" "c"] ++ Op.publish "k" 1 ::
          ([] ++ Op.publish "k" 2 :: []))) (Op.ready "a")).2.countP
        (fun d => d.kind == "k" && d.payload == 1) = 0) ∧
    (execFrom noThrow (stateAfter noThrow
        ([Op.register "a", Op.subscribe "k" "c"] ++ [Op.publish "k" 1]))
        ([] ++ Op.publish "k" 2 :: [])).2 = []) :=
  ⟨by decide, by decide, by decide, by decide,
    c3_last_wins_only_p2 noThrow
      [Op.register "a", Op.subscribe "k" "c"] [] [] "k" 1 2 "a"
      (by decide) (by decide) (by decide) (by decide)⟩

/-- C4: a throwing callback is caught by the dispatcher: every subscriber
of the same kind is still invoked during the flush (including those after
the throwing one), every other pending kind is still delivered in the same
flush, and the flush returns normally (it is a total function producing
the full invocation list). -/
theorem c4_throwing_callback_isolated (throws : CbId → Payload → Bool) (s : BusState)
    (K : Kind) (P : Payload) (bad : CbId) (n : String)
    (h1 : throws bad P = true)
    (h2 : bad ∈ subscribersOf s K)
    (h3 : mapGet s.waitForReadyQueue K = some P)
    (h4 : areRegistersReady (markReady s n) = true) :
    (∀ c ∈ subscribersOf s K,
      Delivery.mk K c P (throws c P) ∈ (readyOp throws s n).2) ∧
    (∀ k p, (k, p) ∈ s.waitForReadyQueue → ∀ c ∈ subscribersOf s k,
      Delivery.mk k c p (throws c p) ∈ (readyOp throws s n).2) := by
  have hout : (readyOp throws s n).2 =
      s.waitForReadyQueue.flatMap
        (fun kp => publishEventOut throws (markReady s n) kp.1 kp.2) := by
    rw [ready_flush throws s n h4]
  have hall : ∀ k p, (k, p) ∈ s.waitForReadyQueue → ∀ c ∈ subscribersOf s k,
      Delivery.mk k c p (throws c p) ∈ (readyOp throws s n).2 := by
    intro k p hkp c hc
    rw [hout]
    apply List.mem_flatMap.mpr
    refine ⟨(k, p), hkp, ?_⟩
    show Delivery.mk k c p (throws c p) ∈ publishEventOut throws (markReady s n) k p
    have hsub : subscribersOf (markReady s n) k = subscribersOf s k := rfl
    unfold publishEventOut
    rw [hsub]
    exact List.mem_map.mpr ⟨c, hc, rfl⟩
  exact ⟨hall K P (mapGet_mem _ _ _ h3), hall⟩

/-- Witness for C4: subscriber "bad" throws, yet both it and "good" are
invoked for the pending kind "k", and the other pending kind "j" is also
delivered. -/
theorem c4_witness :
    throwsBad "bad" 7 = true ∧
    "bad" ∈ subscribersOf ⟨[("k", ["bad", "good"]), ("j", ["g2"])], [("a", false)],
      [("k", 7), ("j", 9)]⟩ "k" ∧
    mapGet (BusState.mk [("k", ["bad", "good"]), ("j", ["g2"])] [("a", false)]
      [("k", 7), ("j", 9)]).waitForReadyQueue "k" = some 7 ∧
    areRegistersReady (markReady ⟨[("k", ["bad", "good"]), ("j", ["g2"])], [("a", false)],
      [("k", 7), ("j", 9)]⟩ "a") = true ∧
    ((∀ c ∈ subscribersOf ⟨[("k", ["bad", "good"]), ("j", ["g2"])], [("a", false)],
        [("k", 7), ("j", 9)]⟩ "k",
      Delivery.mk "k" c 7 (throwsBad c 7) ∈
        (readyOp throwsBad ⟨[("k", ["bad", "good"]), ("j", ["g2"])], [("a", false)],
          [("k", 7), ("j", 9)]⟩ "a").2) ∧
    (∀ k p, (k, p) ∈ (BusState.mk [("k", ["bad", "good"]), ("j", ["g2"])] [("a", false)]
        [("k", 7), ("j", 9)]).waitForReadyQueue →
      ∀ c ∈ subscribersOf ⟨[("k", ["bad", "good"]), ("j", ["g2"])], [("a", false)],
        [("k", 7), ("j", 9)]⟩ k,
      Delivery.mk k c p (throwsBad c p) ∈
        (readyOp throwsBad ⟨[("k", ["bad", "good"]), ("j", ["g2"])], [("a", false)],
          [("k", 7), ("j", 9)]⟩ "a").2)) :=
  ⟨by decide, by decide, by decide, by decide,
    c4_throwing_callback_isolated throwsBad
      ⟨[("k", ["bad", "good"]), ("j", ["g2"])], [("a", false)], [("k", 7), ("j", 9)]⟩
      "k" 7 "bad" "a" (by decide) (by decide) (by decide) (by decide)⟩

/-- C5 counterexample: the Closed-to-Open transition is NOT once-per-run.
After "a" registers and becomes ready the gate is open; registering the
new name "b" re-enters Closed; "b" becoming ready opens the gate a second
time, and each of the two openings flushed the queue (payload 1, then 2). -/
theorem c5_counterexample :
    areRegistersReady (stateAfter noThrow [Op.register "a", Op.subscribe "k" "c",
      Op.publish "k" 1, Op.ready "a"]) = true ∧
    areRegistersReady (stateAfter noThrow [Op.register "a", Op.subscribe "k" "c",
      Op.publish "k" 1, Op.ready "a", Op.register "b"]) = false ∧
    areRegistersReady (stateAfter noThrow [Op.register "a", Op.subscribe "k" "c",
      Op.publish "k" 1, Op.ready "a", Op.register "b", Op.publish "k" 2,
      Op.ready "b"]) = true ∧
    outputOf noThrow [Op.register "a", Op.subscribe "k" "c", Op.publish "k" 1,
      Op.ready "a", Op.register "b", Op.publish "k" 2, Op.ready "b"] =
      [⟨"k", "c", 1, false⟩, ⟨"k", "c", 2, false⟩] := by
  refine ⟨by decide, by decide, by decide, by decide⟩

/-- C5 amended: each ready() call that makes all registered participants
ready triggers exactly one flush of the deferred queue (in queue order)
and leaves the queue empty; the transition is once per opening, not once
per run, since registering a fresh name can re-close an open gate. -/
theorem c5_open_flushes_once_and_clears (throws : CbId → Payload → Bool)
    (s : BusState) (n : String)
    (h : areRegistersReady (markReady s n) = true) :
    (readyOp throws s n).1.waitForReadyQueue = [] ∧
    (readyOp throws s n).2 = s.waitForReadyQueue.flatMap
      (fun kp => publishEventOut throws (markReady s n) kp.1 kp.2) := by
  rw [ready_flush throws s n h]
  exact ⟨rfl, rfl⟩

/-- Witness for the amended C5 at a concrete state. -/
theorem c5_witness :
    areRegistersReady (markReady ⟨[("k", ["c"])], [("a", false)], [("k", 3)]⟩ "a") = true ∧
    (readyOp noThrow ⟨[("k", ["c"])], [("a", false)], [("k", 3)]⟩ "a").1.waitForReadyQueue
      = [] ∧
    (readyOp noThrow ⟨[("k", ["c"])], [("a", false)], [("k", 3)]⟩ "a").2 =
      (BusState.mk [("k", ["c"])] [("a", false)] [("k", 3)]).waitForReadyQueue.flatMap
        (fun kp => publishEventOut noThrow
          (markReady ⟨[("k", ["c"])], [("a", false)], [("k", 3)]⟩ "a") kp.1 kp.2) :=
  ⟨by decide,
    (c5_open_flushes_once_and_clears noThrow
      ⟨[("k", ["c"])], [("a", false)], [("k", 3)]⟩ "a" (by decide)).1,
    (c5_open_flushes_once_and_clears noThrow
      ⟨[("k", ["c"])], [("a", false)], [("k", 3)]⟩ "a" (by decide)).2⟩

theorem registers_of_noGateOps (throws : CbId → Payload → Bool) (ops : List Op)
    (s : BusState) (h : noGateOps ops = true) :
    (execFrom throws s ops).1.registers = s.registers := by
  induction ops generalizing s with
  | nil => rfl
  | cons op t ih =>
    unfold noGateOps at h
    simp only [List.all_cons, Bool.and_eq_true] at h
    rw [execFrom_fst_cons]
    cases op with
    | subscribe k cb => exact ih _ (by unfold noGateOps; exact h.2)
    | publish k p =>
      rw [ih _ (by unfold noGateOps; exact h.2)]
      exact publishOp_registers throws s k p
    | register m => simp at h
    | ready m => simp at h

/-- C6: publishing before any register call has ever executed hits the
vacuous-open gate: the payload is dispatched immediately to the current
subscribers and the state (queue included) is unchanged. -/
theorem c6_vacuous_open_publishes_immediately (throws : CbId → Payload → Bool)
    (ops : List Op) (K : Kind) (P : Payload) (h : noGateOps ops = true) :
    step throws (stateAfter throws ops) (Op.publish K P) =
      (stateAfter throws ops, publishEventOut throws (stateAfter throws ops) K P) := by
  have hreg : (stateAfter throws ops).registers = [] :=
    registers_of_noGateOps throws ops init h
  have hopen : areRegistersReady (stateAfter throws ops) = true := by
    unfold areRegistersReady
    rw [hreg]
    rfl
  show publishOp throws (stateAfter throws ops) K P = _
  unfold publishOp
  rw [if_pos hopen]

/-- Witness for C6: a publish with only a prior subscribe is delivered at
once and nothing is queued. -/
theorem c6_witness :
    noGateOps [Op.subscribe "k" "c"] = true ∧
    step noThrow (stateAfter noThrow [Op.subscribe "k" "c"]) (Op.publish "k" 7) =
      (stateAfter noThrow [Op.subscribe "k" "c"],
        publishEventOut noThrow (stateAfter noThrow [Op.subscribe "k" "c"]) "k" 7) :=
  ⟨by decide,
    c6_vacuous_open_publishes_immediately noThrow [Op.subscribe "k" "c"] "k" 7 (by decide)⟩

theorem subscribersOf_subscribeOp_self (s : BusState) (K : Kind) (cb : CbId) :
    subscribersOf (subscribeOp s K cb) K = innerSet (subscribersOf s K) cb := by
  unfold subscribeOp subscribersOf
  rw [mapGet_mapSet_self]
  rfl

theorem innerSet_mem_self (l : List CbId) (cb : CbId) : cb ∈ innerSet l cb := by
  unfold innerSet
  split
  · assumption
  · simp

theorem innerSet_idem (l : List CbId) (cb : CbId) :
    innerSet (innerSet l cb) cb = innerSet l cb := by
  have h : cb ∈ innerSet l cb := innerSet_mem_self l cb
  unfold innerSet at h ⊢
  rw [if_pos]
  exact h

/-- C7: subscribing a structurally identical callback twice under the same
kind is a no-op for the second call (one subscription slot), and a publish
of that kind then invokes the callback exactly once. -/
theorem c7_subscribe_idempotent_single_delivery (throws : CbId → Payload → Bool)
    (s : BusState) (K : Kind) (P : Payload) (cb : CbId)
    (h : (subscribersOf s K).Nodup) :
    subscribeOp (subscribeOp s K cb) K cb = subscribeOp s K cb ∧
    (publishEventOut throws (subscribeOp (subscribeOp s K cb) K cb) K P).countP
      (fun d => d.subscriber == cb) = 1 := by
  have hsubs : subscribersOf (subscribeOp s K cb) K = innerSet (subscribersOf s K) cb :=
    subscribersOf_subscribeOp_self s K cb
  have hget : mapGet (subscribeOp s K cb).subscribers K =
      some (innerSet (subscribersOf s K) cb) := by
    show mapGet (mapSet s.subscribers K (innerSet (subscribersOf s K) cb)) K = _
    exact mapGet_mapSet_self _ _ _
  have hfield : mapSet (subscribeOp s K cb).subscribers K
      (innerSet (subscribersOf (subscribeOp s K cb) K) cb) =
      (subscribeOp s K cb).subscribers := by
    rw [hsubs, innerSet_idem]
    exact mapSet_eq_of_mapGet _ _ _ hget
  have hrec : ∀ (t : BusState) (X : List (Kind × List CbId)),
      X = t.subscribers → BusState.mk X t.registers t.waitForReadyQueue = t := by
    intro t X hX
    cases t
    rw [hX]
  have hidem : subscribeOp (subscribeOp s K cb) K cb = subscribeOp s K cb :=
    hrec (subscribeOp s K cb) _ hfield
  refine ⟨hidem, ?_⟩
  rw [hidem]
  unfold publishEventOut
  rw [hsubs]
  exact countP_subscriber_map throws _ cb K P (innerSet_nodup _ _ h) (innerSet_mem_self _ _)

/-- Witness for C7 on a concrete state. -/
theorem c7_witness :
    (subscribersOf ⟨[("k", ["x"])], [], []⟩ "k").Nodup ∧
    (subscribeOp (subscribeOp ⟨[("k", ["x"])], [], []⟩ "k" "c") "k" "c" =
      subscribeOp ⟨[("k", ["x"])], [], []⟩ "k" "c") ∧
    (publishEventOut noThrow
        (subscribeOp (subscribeOp ⟨[("k", ["x"])], [], []⟩ "k" "c") "k" "c") "k" 3).countP
      (fun d => d.subscriber == "c") = 1 :=
  ⟨by decide,
    (c7_subscribe_idempotent_single_delivery noThrow ⟨[("k", ["x"])], [], []⟩ "k" 3 "c"
      (by decide)).1,
    (c7_subscribe_idempotent_single_delivery noThrow ⟨[("k", ["x"])], [], []⟩ "k" 3 "c"
      (by decide)).2⟩

theorem queue_keys_after_publishes (throws : CbId → Payload → Bool)
    (pubs : List (Kind × Payload)) (s : BusState)
    (hclosed : areRegistersReady s = false) :
    (execFrom throws s (pubs.map fun kp => Op.publish kp.1 kp.2)).1.waitForReadyQueue.map
        Prod.fst =
      pubs.foldl (fun ks kp => if kp.1 ∈ ks then ks else ks ++ [kp.1])
        (s.waitForReadyQueue.map Prod.fst) := by
  induction pubs generalizing s with
  | nil => rfl
  | cons kp t ih =>
    obtain ⟨k, p⟩ := kp
    simp only [List.map_cons, List.foldl_cons]
    rw [execFrom_fst_cons]
    have hstep : (step throws s (Op.publish k p)).1 =
        { s with waitForReadyQueue := mapSet s.waitForReadyQueue k p } := by
      show (publishOp throws s k p).1 = _
      unfold publishOp
      rw [if_neg (by rw [hclosed]; exact Bool.false_ne_true)]
    rw [hstep]
    have hclosed' : areRegistersReady
        { s with waitForReadyQueue := mapSet s.waitForReadyQueue k p } = false := by
      rw [areRegistersReady_eq_of_registers
        { s with waitForReadyQueue := mapSet s.waitForReadyQueue k p } s rfl]
      exact hclosed
    rw [ih _ hclosed']
    show List.foldl _ ((mapSet s.waitForReadyQueue k p).map Prod.fst) t = _
    rw [keys_mapSet]

/-- C8: after a run of publishes while the gate is closed, the queue's key
order is the order in which each kind was first enqueued (later overwrites
of a kind do not move it), and a ready() call that opens the gate flushes
the queue in exactly that order and leaves it empty. -/
theorem c8_flush_order_first_enqueued (throws : CbId → Payload → Bool)
    (s : BusState) (pubs : List (Kind × Payload)) (n : String)
    (hclosed : areRegistersReady s = false)
    (hopen : areRegistersReady (markReady
      (execFrom throws s (pubs.map fun kp => Op.publish kp.1 kp.2)).1 n) = true) :
    ((execFrom throws s (pubs.map fun kp => Op.publish kp.1 kp.2)).1.waitForReadyQueue.map
        Prod.fst =
      pubs.foldl (fun ks kp => if kp.1 ∈ ks then ks else ks ++ [kp.1])
        (s.waitForReadyQueue.map Prod.fst)) ∧
    ((readyOp throws (execFrom throws s (pubs.map fun kp => Op.publish kp.1 kp.2)).1 n).2 =
      (execFrom throws s (pubs.map fun kp => Op.publish kp.1 kp.2)).1.waitForReadyQueue.flatMap
        (fun kp => publishEventOut throws
          (markReady (execFrom throws s (pubs.map fun kp => Op.publish kp.1 kp.2)).1 n)
          kp.1 kp.2)) ∧
    (readyOp throws (execFrom throws s
        (pubs.map fun kp => Op.publish kp.1 kp.2)).1 n).1.waitForReadyQueue = [] := by
  refine ⟨queue_keys_after_publishes throws pubs s hclosed, ?_, ?_⟩
  · rw [ready_flush throws _ n hopen]
  · rw [ready_flush throws _ n hopen]

/-- Witness for C8: kinds k1, k2 first enqueued in that order, k1 then
overwritten; the flush delivers k1 (payload 3) before k2 (payload 2) and
empties the queue. -/
theorem c8_witness :
    areRegistersReady (BusState.mk [("k1", ["c"]), ("k2", ["c"])] [("a", false)] []) = false ∧
    areRegistersReady (markReady
      (execFrom noThrow ⟨[("k1", ["c"]), ("k2", ["c"])], [("a", false)], []⟩
        ([("k1", (1 : Payload)), ("k2", 2), ("k1", 3)].map fun kp => Op.publish kp.1 kp.2)).1
      "a") = true ∧
    ((execFrom noThrow ⟨[("k1", ["c"]), ("k2", ["c"])], [("a", false)], []⟩
        ([("k1", (1 : Payload)), ("k2", 2), ("k1", 3)].map
          fun kp => Op.publish kp.1 kp.2)).1.waitForReadyQueue.map Prod.fst =
      [("k1", (1 : Payload)), ("k2", 2), ("k1", 3)].foldl
        (fun ks kp => if kp.1 ∈ ks then ks else ks ++ [kp.1])
        ((BusState.mk [("k1", ["c"]), ("k2", ["c"])] [("a", false)]
          []).waitForReadyQueue.map Prod.fst)) ∧
    ((readyOp noThrow (execFrom noThrow ⟨[("k1", ["c"]), ("k2", ["c"])], [("a", false)], []⟩
        ([("k1", (1 : Payload)), ("k2", 2), ("k1", 3)].map
          fun kp => Op.publish kp.1 kp.2)).1 "a").2 =
      (execFrom noThrow ⟨[("k1", ["c"]), ("k2", ["c"])], [("a", false)], []⟩
        ([("k1", (1 : Payload)), ("k2", 2), ("k1", 3)].map
          fun kp => Op.publish kp.1 kp.2)).1.waitForReadyQueue.flatMap
        (fun kp => publishEventOut noThrow
          (markReady (execFrom noThrow ⟨[("k1", ["c"]), ("k2", ["c"])], [("a", false)], []⟩
            ([("k1", (1 : Payload)), ("k2", 2), ("k1", 3)].map
              fun kp => Op.publish kp.1 kp.2)).1 "a")
          kp.1 kp.2)) ∧
    (readyOp noThrow (execFrom noThrow ⟨[("k1", ["c"]), ("k2", ["c"])], [("a", false)], []⟩
        ([("k1", (1 : Payload)), ("k2", 2), ("k1", 3)].map
          fun kp => Op.publish kp.1 kp.2)).1 "a").1.waitForReadyQueue = [] := by
  refine ⟨by decide, by decide, ?_⟩
  exact c8_flush_order_first_enqueued noThrow
    ⟨[("k1", ["c"]), ("k2", ["c"])], [("a", false)], []⟩
    [("k1", 1), ("k2", 2), ("k1", 3)] "a" (by decide) (by decide)

theorem readyOp_eq (throws : CbId → Payload → Bool) (s : BusState) (n : String) :
    readyOp throws s n =
      if areRegistersReady (markReady s n) &&
          decide (0 < s.waitForReadyQueue.length) then
        ({ markReady s n with waitForReadyQueue := [] },
          s.waitForReadyQueue.flatMap fun kp =>
            publishEventOut throws (markReady s n) kp.1 kp.2)
      else (markReady s n, []) := rfl

theorem readyOp_queue_empty_of_open (throws : CbId → Payload → Bool) (s : BusState)
    (n : String) (h : areRegistersReady (readyOp throws s n).1 = true) :
    (readyOp throws s n).1.waitForReadyQueue = [] := by
  rw [readyOp_eq] at h ⊢
  by_cases hc : (areRegistersReady (markReady s n) &&
      decide (0 < s.waitForReadyQueue.length)) = true
  · rw [if_pos hc]
  · rw [if_neg hc] at h ⊢
    have hopen : areRegistersReady (markReady s n) = true := h
    have hlen : ¬ (0 < s.waitForReadyQueue.length) := by
      intro hl
      exact hc (by simp [hopen, hl])
    show s.waitForReadyQueue = []
    have : s.waitForReadyQueue.length = 0 := by omega
    exact List.eq_nil_of_length_eq_zero this

theorem markReady_of_flag (s : BusState) (n : String)
    (h : mapGet s.registers n = some true) : markReady s n = s := by
  unfold markReady
  rw [mapSet_eq_of_mapGet _ _ _ h]

theorem readyOp_flag (throws : CbId → Payload → Bool) (s : BusState) (n : String) :
    mapGet (readyOp throws s n).1.registers n = some true := by
  rw [readyOp_registers]
  exact mapGet_mapSet_self _ _ _

/-- Calling ready() again for the same name after a first call changes
nothing and delivers nothing. -/
theorem ready_ready_noop (throws : CbId → Payload → Bool) (s : BusState) (n : String) :
    readyOp throws (readyOp throws s n).1 n = ((readyOp throws s n).1, []) := by
  have hmark : markReady (readyOp throws s n).1 n = (readyOp throws s n).1 :=
    markReady_of_flag _ n (readyOp_flag throws s n)
  rw [readyOp_eq throws (readyOp throws s n).1 n, hmark]
  by_cases hopen : areRegistersReady (readyOp throws s n).1 = true
  · have hq : (readyOp throws s n).1.waitForReadyQueue = [] :=
      readyOp_queue_empty_of_open throws s n hopen
    rw [if_neg]
    simp [hq]
  · rw [if_neg]
    simp [hopen]

theorem registerOp_isSome (s : BusState) (n : String) :
    (mapGet (registerOp s n).registers n).isSome = true := by
  unfold registerOp
  split
  · assumption
  · rename_i h
    have hnone : mapGet s.registers n = none := Option.not_isSome_iff_eq_none.mp h
    show (mapGet (s.registers ++ [(n, false)]) n).isSome = true
    rw [mapGet_append_of_none _ _ _ hnone]
    simp [mapGet]

theorem flag_monotone_step (throws : CbId → Payload → Bool) (s : BusState)
    (m : String) (op : Op) (h : mapGet s.registers m = some true) :
    mapGet ((step throws s op).1).registers m = some true := by
  cases op with
  | subscribe k cb => exact h
  | publish k p =>
    show mapGet (publishOp throws s k p).1.registers m = some true
    rw [publishOp_registers]
    exact h
  | register k =>
    show mapGet (registerOp s k).registers m = some true
    unfold registerOp
    split
    · exact h
    · exact mapGet_append_of_isSome _ _ _ _ h
  | ready k =>
    show mapGet (readyOp throws s k).1.registers m = some true
    rw [readyOp_registers]
    by_cases hmk : m = k
    · subst hmk
      exact mapGet_mapSet_self _ _ _
    · rw [mapGet_mapSet_ne _ _ _ _ (fun hh => hmk hh.symm)]
      exact h

/-- C9: register(name) is idempotent and never resets an existing
participant (in particular not its readiness); ready() is monotone: after
a first ready() the flag is true, a second ready() is a complete no-op,
and no operation ever reverts a true flag. -/
theorem c9_register_idempotent_ready_monotone (throws : CbId → Payload → Bool)
    (s : BusState) (n : String) :
    (registerOp (registerOp s n) n = registerOp s n) ∧
    ((mapGet s.registers n).isSome = true → registerOp s n = s) ∧
    (mapGet (readyOp throws s n).1.registers n = some true) ∧
    (readyOp throws (readyOp throws s n).1 n = ((readyOp throws s n).1, [])) ∧
    (∀ m op, mapGet s.registers m = some true →
      mapGet ((step throws s op).1).registers m = some true) := by
  refine ⟨?_, ?_, readyOp_flag throws s n, ready_ready_noop throws s n,
    fun m op h => flag_monotone_step throws s m op h⟩
  · show (if (mapGet (registerOp s n).registers n).isSome then registerOp s n
      else _) = registerOp s n
    rw [if_pos (registerOp_isSome s n)]
  · intro h
    unfold registerOp
    rw [if_pos h]

/-- Witness for C9 at a concrete state with "a" already ready. -/
theorem c9_witness :
    (mapGet (BusState.mk [] [("a", true)] []).registers "a").isSome = true ∧
    registerOp ⟨[], [("a", true)], []⟩ "a" = ⟨[], [("a", true)], []⟩ ∧
    mapGet (readyOp noThrow ⟨[], [("a", true)], []⟩ "a").1.registers "a" = some true ∧
    mapGet ((step noThrow ⟨[], [("a", true)], []⟩ (Op.register "b")).1).registers "a"
      = some true :=
  ⟨by decide,
    (c9_register_idempotent_ready_monotone noThrow ⟨[], [("a", true)], []⟩ "a").2.1
      (by decide),
    (c9_register_idempotent_ready_monotone noThrow ⟨[], [("a", true)], []⟩ "a").2.2.1,
    (c9_register_idempotent_ready_monotone noThrow ⟨[], [("a", true)], []⟩ "a").2.2.2.2
      "a" (Op.register "b") (by decide)⟩

theorem open_queue_empty_step (throws : CbId → Payload → Bool) (s : BusState) (op : Op)
    (h : areRegistersReady s = true → s.waitForReadyQueue = []) :
    areRegistersReady (step throws s op).1 = true →
      (step throws s op).1.waitForReadyQueue = [] := by
  cases op with
  | subscribe k cb => exact h
  | publish k p =>
    show areRegistersReady (publishOp throws s k p).1 = true →
      (publishOp throws s k p).1.waitForReadyQueue = []
    by_cases hopen : areRegistersReady s = true
    · unfold publishOp
      rw [if_pos hopen]
      exact h
    · unfold publishOp
      rw [if_neg hopen]
      intro ho
      exact absurd (ho : areRegistersReady s = true) hopen
  | register m =>
    show areRegistersReady (registerOp s m) = true →
      (registerOp s m).waitForReadyQueue = []
    unfold registerOp
    split
    · exact h
    · intro ho
      exfalso
      simp [areRegistersReady, List.all_append] at ho
  | ready m => exact readyOp_queue_empty_of_open throws s m

theorem open_queue_empty_execFrom (throws : CbId → Payload → Bool) (ops : List Op)
    (s : BusState) (h : areRegistersReady s = true → s.waitForReadyQueue = []) :
    areRegistersReady (execFrom throws s ops).1 = true →
      (execFrom throws s ops).1.waitForReadyQueue = [] := by
  induction ops generalizing s with
  | nil => exact h
  | cons op t ih =>
    rw [execFrom_fst_cons]
    exact ih _ (open_queue_empty_step throws s op h)

/-- C10: after every operation sequence, an open gate implies an empty
deferred queue (a pending payload is never held while delivery is
immediate), and a repeated ready() call for the same name delivers
nothing further (no pending payload is delivered twice). -/
theorem c10_open_gate_queue_empty (throws : CbId → Payload → Bool) (ops : List Op) :
    (areRegistersReady (stateAfter throws ops) = true →
      (stateAfter throws ops).waitForReadyQueue = []) ∧
    ∀ n, (readyOp throws (readyOp throws (stateAfter throws ops) n).1 n).2 = [] := by
  constructor
  · exact open_queue_empty_execFrom throws ops init (fun _ => rfl)
  · intro n
    rw [ready_ready_noop throws (stateAfter throws ops) n]

/-- Witness for C10 at a concrete run that opens the gate after a queued
publish. -/
theorem c10_witness :
    areRegistersReady (stateAfter noThrow
      [Op.register "a", Op.subscribe "k" "c", Op.publish "k" 1, Op.ready "a"]) = true ∧
    (stateAfter noThrow
      [Op.register "a", Op.subscribe "k" "c", Op.publish "k" 1,
        Op.ready "a"]).waitForReadyQueue = [] ∧
    (readyOp noThrow (readyOp noThrow (stateAfter noThrow
      [Op.register "a", Op.subscribe "k" "c", Op.publish "k" 1, Op.ready "a"]) "a").1
      "a").2 = [] :=
  ⟨by decide,
    (c10_open_gate_queue_empty noThrow
      [Op.register "a", Op.subscribe "k" "c", Op.publish "k" 1, Op.ready "a"]).1
      (by decide),
    (c10_open_gate_queue_empty noThrow
      [Op.register "a", Op.subscribe "k" "c", Op.publish "k" 1, Op.ready "a"]).2 "a"⟩
